import Mathlib

/-!
Verification of the stage-timeline pipeline in `scripts/stages.py`.

The Python source is shallowly embedded: pure functions become Lean
functions, the stateful history scan becomes an explicit fold over a
`ScanState`, fallible operations (unknown status strings, the unguarded
`list.remove`, the final `NO_COMPONENT` consistency check) return
`Option`.  Python string comparison (used for timestamps) is modelled by
`ltb`, lexicographic comparison of the underlying character lists, which
is exactly CPython's semantics for `str < str` on these ASCII strings.
-/

/-- Lexicographic strict comparison of character lists, mirroring Python
string comparison by code point. -/
def ltb : List Char → List Char → Bool
  | [], [] => false
  | [], _ :: _ => true
  | _ :: _, [] => false
  | a :: as, b :: bs => if a < b then true else if b < a then false else ltb as bs

/-- Python `a < b` on strings. -/
def strLtB (a b : String) : Bool := ltb a.data b.data

/-- Python `a < b` on strings, as a proposition. -/
def strLt (a b : String) : Prop := strLtB a b = true

/-- Python `a <= b` on strings, as a proposition. -/
def strLe (a b : String) : Prop := strLtB b a = false

instance (a b : String) : Decidable (strLt a b) := by unfold strLt; infer_instance

instance (a b : String) : Decidable (strLe a b) := by unfold strLe; infer_instance

/-- The workflow stages of `stages.py`, in declaration order. -/
inductive Stage where
  | NOTHING
  | NO_COMPONENT
  | UNCONFIRMED
  | CONFIRMED
  | PENDING_NEEDINFO
  | ANSWERED_NEEDINFO
  | TRIAGED
  | ASSIGNED
  | IN_REVIEW
  | RESOLVED
  deriving DecidableEq, Repr

/-- The `auto()` value backing each stage; `Stage.__lt__` compares these. -/
def stageOrd : Stage → Nat
  | .NOTHING => 1
  | .NO_COMPONENT => 2
  | .UNCONFIRMED => 3
  | .CONFIRMED => 4
  | .PENDING_NEEDINFO => 5
  | .ANSWERED_NEEDINFO => 6
  | .TRIAGED => 7
  | .ASSIGNED => 8
  | .IN_REVIEW => 9
  | .RESOLVED => 10

/-- `status_to_stage` from the source; an unrecognized status raises
`ValueError`, modelled as `none`. -/
def status_to_stage (status : String) : Option Stage :=
  if status = "UNCONFIRMED" then some .UNCONFIRMED
  else if status = "NEW" ∨ status = "REOPENED" then some .CONFIRMED
  else if status = "ASSIGNED" then some .ASSIGNED
  else if status = "REVIEW" then some .IN_REVIEW
  else if status = "RESOLVED" ∨ status = "VERIFIED" ∨ status = "CLOSED" then some .RESOLVED
  else none

/-- One entry of a history event's `changes` array. -/
structure FieldChange where
  field_name : String
  added : String
  removed : String
  deriving DecidableEq, Repr

/-- One entry of a bug's `history` array. -/
structure HistoryEvent where
  when : String
  changes : List FieldChange
  deriving DecidableEq, Repr

/-- One entry of a bug's `attachments` array. -/
structure Attachment where
  is_patch : Bool
  creation_time : String
  deriving DecidableEq, Repr

/-- One entry of a bug's `flags` array. -/
structure BugFlag where
  name : String
  requestee : String
  deriving DecidableEq, Repr

/-- The fields of a bug record that `stages.py` reads. -/
structure Bug where
  type : String
  product : String
  status : String
  severity : String
  component : String
  creation_time : String
  history : List HistoryEvent
  attachments : List Attachment
  flags : List BugFlag
  deriving DecidableEq, Repr

/-- `get_current_stage` from the source: present-moment stage from the
bug's current fields, without history replay. -/
def get_current_stage (bug : Bug) : Option Stage := do
  let stage ← status_to_stage bug.status
  if stage ≠ Stage.RESOLVED then
    if bug.attachments.any (·.is_patch) then
      pure Stage.IN_REVIEW
    else if bug.severity ≠ "n/a" ∧ bug.severity ≠ "--" then
      pure Stage.TRIAGED
    else
      pure stage
  else
    pure stage

/-- `OLDEST_BUG` from the source. -/
def OLDEST_BUG : String := "2020-01-01"

/-- `default_filter` from the source (`true` means the bug is excluded). -/
def default_filter (bug : Bug) : Bool :=
  bug.type ≠ "defect" ∨ bug.product = "Invalid Bugs" ∨ strLt bug.creation_time OLDEST_BUG

/-- All matches of the regex `needinfo\?\((.*?)\)` in a character list:
at each position try to match the literal `needinfo?(`, then capture
non-greedily up to the next `)` (`.` does not cross a newline).  The
`fuel` argument only drives structural recursion; every step consumes at
least one character, so a fuel equal to the list length is enough. -/
def niScanGo : Nat → List Char → List String
  | 0, _ => []
  | _, [] => []
  | fuel + 1, c :: rest =>
    if ("needinfo?(".data).isPrefixOf (c :: rest) then
      let tail := (c :: rest).drop 10
      let cap := tail.takeWhile (fun ch => ch ≠ ')' ∧ ch ≠ '\n')
      match tail.dropWhile (fun ch => ch ≠ ')' ∧ ch ≠ '\n') with
      | ')' :: r => String.mk cap :: niScanGo fuel r
      | _ => niScanGo fuel rest
    else niScanGo fuel rest

/-- `NI_PAT.findall` from the source, applied to a flag-change value. -/
def niFindAll (s : String) : List String := niScanGo s.data.length s.data

/-- One entry of the `needinfo_events` list built by `get_events`. -/
structure NiEvent where
  time : String
  add : List String
  remove : List String
  deriving DecidableEq, Repr

/-- Python `list.remove`: delete the first occurrence, `none` when the
element is absent (where CPython raises `ValueError`). -/
def removeFirst (a : String) : List String → Option (List String)
  | [] => none
  | x :: xs => if x = a then some xs else (removeFirst a xs).map (x :: ·)

/-- The guarded removal of the first needinfo replay (lines 131-137 of
the source): state is `(current_needinfos, needinfo_events[0].add)`; a
removal of an untracked identity is compensated by appending the
identity to the creation-time add list instead of failing. -/
def ni1RemoveStep (st : List String × List String) (email : String) :
    List String × List String :=
  match removeFirst email st.1 with
  | some cur => (cur, st.2)
  | none => (st.1, st.2 ++ [email])

/-- Folding `ni1RemoveStep` over the removed identities of one delta. -/
def remFold (st : List String × List String) (rs : List String) :
    List String × List String :=
  rs.foldl ni1RemoveStep st

/-- The first needinfo replay's treatment of one flag delta: guarded
removals, then extend `current_needinfos` with the added identities. -/
def pass1Step (st : List String × List String) (ev : NiEvent) :
    List String × List String :=
  let p := remFold st ev.remove
  (p.1 ++ ev.add, p.2)

/-- The first needinfo replay over a whole delta list. -/
def pass1 (st : List String × List String) (ds : List NiEvent) :
    List String × List String :=
  ds.foldl pass1Step st

/-- The mutable state of the per-bug history scan in `get_events`. -/
structure ScanState where
  is_confirmed_after_open : Bool
  is_severity_changed : Bool
  is_moved_to_component_after_open : Bool
  bug_events : List (String × Stage)
  current_needinfos : List String
  ni_creation_add : List String
  ni_rest : List NiEvent
  deriving DecidableEq, Repr

/-- The scan state at the top of the per-bug loop. -/
def initScan : ScanState :=
  { is_confirmed_after_open := false
    is_severity_changed := false
    is_moved_to_component_after_open := false
    bug_events := []
    current_needinfos := []
    ni_creation_add := []
    ni_rest := [] }

/-- The body of the history scan for one field change (lines 92-138 of
the source).  A `status` change with an unknown added value fails. -/
def scanChange (st : ScanState) (whenAt : String) (c : FieldChange) : Option ScanState :=
  if c.field_name = "status" then
    match status_to_stage c.added with
    | none => none
    | some stg =>
      some { st with
        bug_events := st.bug_events ++ [(whenAt, stg)]
        is_confirmed_after_open :=
          st.is_confirmed_after_open || (c.removed = "UNCONFIRMED") }
  else if c.field_name = "severity" then
    if st.is_severity_changed = false ∧ c.added ≠ "n/a" ∧ c.added ≠ "--" then
      some { st with
        is_severity_changed := true
        bug_events := st.bug_events ++ [(whenAt, Stage.TRIAGED)] }
    else some st
  else if c.field_name = "component" then
    if st.is_moved_to_component_after_open = false ∧ c.added ≠ "Untriaged" then
      some { st with
        is_moved_to_component_after_open := true
        bug_events := st.bug_events ++ [(whenAt, Stage.UNCONFIRMED)] }
    else some st
  else if c.field_name = "flagtypes.name" then
    let ev : NiEvent := ⟨whenAt, niFindAll c.added, niFindAll c.removed⟩
    let p := pass1Step (st.current_needinfos, st.ni_creation_add) ev
    some { st with
      ni_rest := st.ni_rest ++ [ev]
      current_needinfos := p.1
      ni_creation_add := p.2 }
  else some st

/-- A bug's history flattened to `(when, change)` pairs in scan order. -/
def flatChanges (h : List HistoryEvent) : List (String × FieldChange) :=
  h.flatMap (fun e => e.changes.map (fun c => (e.when, c)))

/-- The whole per-bug history scan. -/
def scanHistory (bug : Bug) : Option ScanState :=
  (flatChanges bug.history).foldlM (fun st p => scanChange st p.1 p.2) initScan

/-- The flag deltas a change list contributes, in order. -/
def extractDeltas (cs : List (String × FieldChange)) : List NiEvent :=
  cs.filterMap (fun p =>
    if p.2.field_name = "flagtypes.name" then
      some ⟨p.1, niFindAll p.2.added, niFindAll p.2.removed⟩
    else none)

/-- Line 141 of the source: requestees of standing `needinfo` flags not
already accounted for by the replayed history. -/
def standingFlags (bug : Bug) (cur : List String) : List String :=
  (bug.flags.filter
    (fun f => f.name = "needinfo" ∧ ¬ cur.contains f.requestee)).map (·.requestee)

/-- The unguarded removal fold of the second needinfo replay. -/
def rem2Fold (cur : List String) (rs : List String) : Option (List String) :=
  rs.foldlM (fun c e => removeFirst e c) cur

/-- One step of the second needinfo replay (lines 149-169 of the
source): unguarded removals, additions, then a `PENDING_NEEDINFO` or
`ANSWERED_NEEDINFO` candidate when the pending set becomes non-empty or
empty. -/
def replayEvent (st : List String × List (String × Stage)) (ev : NiEvent) :
    Option (List String × List (String × Stage)) := do
  let was_pending := 0 < st.1.length
  let cur ← rem2Fold st.1 ev.remove
  let cur := cur ++ ev.add
  if was_pending ∧ cur.length = 0 then
    pure (cur, st.2 ++ [(ev.time, Stage.ANSWERED_NEEDINFO)])
  else if ¬ was_pending ∧ 0 < cur.length then
    pure (cur, st.2 ++ [(ev.time, Stage.PENDING_NEEDINFO)])
  else
    pure (cur, st.2)

/-- The second needinfo replay over the whole `needinfo_events` list. -/
def replayAll (evs : List NiEvent) : Option (List String × List (String × Stage)) :=
  evs.foldlM replayEvent ([], [])

/-- Lines 172-176 of the source: earliest creation time of a patch
attachment (`none` when there is no patch). -/
def firstPatchAt (atts : List Attachment) : Option String :=
  atts.foldl
    (fun acc a =>
      if a.is_patch = false then acc
      else match acc with
        | none => some a.creation_time
        | some t => if strLtB a.creation_time t then some a.creation_time else some t)
    none

/-- Lines 177-178: the `IN_REVIEW` candidate from the first patch.  The
Python guard `if first_patch_at:` is falsy both for `None` and for the
empty string. -/
def patchEvents (bug : Bug) : List (String × Stage) :=
  match firstPatchAt bug.attachments with
  | some t => if t ≠ "" then [(t, Stage.IN_REVIEW)] else []
  | none => []

/-- Lines 180-200: the synthesized creation-time candidate. -/
def creationEvent (bug : Bug) (sc : ScanState) : String × Stage :=
  if sc.is_moved_to_component_after_open || (bug.component = "Untriaged") then
    (bug.creation_time, Stage.NO_COMPONENT)
  else if sc.is_confirmed_after_open || (bug.status = "UNCONFIRMED") then
    (bug.creation_time, Stage.UNCONFIRMED)
  else
    (bug.creation_time, Stage.CONFIRMED)

/-- The full unsorted candidate list of one bug, in the order the source
appends to `bug_events`: history-scan candidates, needinfo candidates,
the patch candidate, then the creation candidate. -/
def candList (bug : Bug) : Option (List (String × Stage)) := do
  let sc ← scanHistory bug
  let ev0 : NiEvent :=
    ⟨bug.creation_time, sc.ni_creation_add ++ standingFlags bug sc.current_needinfos, []⟩
  let r ← replayAll (ev0 :: sc.ni_rest)
  pure (sc.bug_events ++ r.2 ++ patchEvents bug ++ [creationEvent bug sc])

/-- The comparison `bug_events.sort()` actually uses: Python tuple
comparison on `(when, stage)`, i.e. timestamp first, then the stage's
`auto()` value. -/
def candLe (a b : String × Stage) : Prop :=
  strLt a.1 b.1 ∨ (a.1 = b.1 ∧ stageOrd a.2 ≤ stageOrd b.2)

instance : DecidableRel candLe := fun a b => by unfold candLe; infer_instance

/-- Comparison by timestamp alone (what a stable source-priority sort
would key on). -/
def whenLe (a b : String × Stage) : Prop := strLe a.1 b.1

instance : DecidableRel whenLe := fun a b => by unfold whenLe; infer_instance

/-- Lines 204-212: the monotonic-acceptance fold.  Returns the committed
transitions and the final `last_stage`. -/
def commitFold (last : Stage) : List (String × Stage) → List (String × Stage × Stage) × Stage
  | [] => ([], last)
  | (whenAt, stage) :: rest =>
    if stageOrd last < stageOrd stage ∨
        (stage = Stage.PENDING_NEEDINFO ∧ last = Stage.ANSWERED_NEEDINFO) then
      let r := commitFold stage rest
      ((whenAt, stage, last) :: r.1, r.2)
    else commitFold last rest

/-- The committed transitions of one bug (`none` on an unknown status,
a failed unguarded removal, or the final `NO_COMPONENT` consistency
fault of line 214). -/
def bugEvents (bug : Bug) : Option (List (String × Stage × Stage)) := do
  let cands ← candList bug
  let sorted := List.insertionSort candLe cands
  let r := commitFold Stage.NOTHING sorted
  if r.2 = Stage.NO_COMPONENT ∧ bug.component ≠ "Untriaged" then none
  else pure r.1

/-- The comparison `events.sort()` uses: Python tuple comparison on
`(when, stage, last_stage)`. -/
def evLe (a b : String × Stage × Stage) : Prop :=
  strLt a.1 b.1 ∨
    (a.1 = b.1 ∧
      (stageOrd a.2.1 < stageOrd b.2.1 ∨
        (a.2.1 = b.2.1 ∧ stageOrd a.2.2 ≤ stageOrd b.2.2)))

instance : DecidableRel evLe := fun a b => by unfold evLe; infer_instance

/-- The per-bug step of the `get_events` loop: a bug accepted by the
filter is skipped (`continue`), otherwise its committed transitions are
appended to the accumulated event list. -/
def getEventsStep (filt : Bug → Bool) (acc : List (String × Stage × Stage)) (bug : Bug) :
    Option (List (String × Stage × Stage)) :=
  if filt bug then pure acc
  else do
    let bevs ← bugEvents bug
    pure (acc ++ bevs)

/-- `get_events` from the source, over an already-materialized bug list:
bugs accepted by the filter are dropped, the per-bug committed
transitions are concatenated, and the result is sorted. -/
def get_events (filt : Bug → Bool) (bugs : List Bug) :
    Option (List (String × Stage × Stage)) := do
  let evs ← bugs.foldlM (getEventsStep filt) ([] : List (String × Stage × Stage))
  pure (List.insertionSort evLe evs)

/-- The calendar day of an event: `when[:10]`, the first ten characters
of the timestamp. -/
def dayOf (e : String × Stage × Stage) : String := String.mk (e.1.data.take 10)

/-- Add `d` to the counter of stage `t` (a Python `dict` update). -/
def bump (f : Stage → Int) (t : Stage) (d : Int) : Stage → Int :=
  fun u => if u = t then f u + d else f u

/-- Lines 242-243 of the source: increment the new stage's counter and
decrement the previous stage's counter. -/
def applyEvent (f : Stage → Int) (e : String × Stage × Stage) : Stage → Int :=
  bump (bump f e.2.1 1) e.2.2 (-1)

/-- The counters after applying a whole event list to zero counters. -/
def applyEvents (evs : List (String × Stage × Stage)) : Stage → Int :=
  evs.foldl applyEvent (fun _ => 0)

/-- The mutable state of `aggregate_events_by_day`. -/
structure AggState where
  day_status : Stage → Int
  last_day : String
  status_by_day : Stage → List Int
  dates : List String

/-- The aggregator state before the loop. -/
def initAgg : AggState :=
  { day_status := fun _ => 0
    last_day := ""
    status_by_day := fun _ => []
    dates := [] }

/-- One iteration of the loop of `aggregate_events_by_day`: when the
event's day exceeds `last_day`, push the current counters as the
snapshot for that day, then apply the event. -/
def aggStep (st : AggState) (e : String × Stage × Stage) : AggState :=
  let day := dayOf e
  let st' :=
    if strLtB st.last_day day then
      { st with
        last_day := day
        dates := st.dates ++ [day]
        status_by_day := fun s => st.status_by_day s ++ [st.day_status s] }
    else st
  { st' with day_status := applyEvent st'.day_status e }

/-- The aggregator state after the whole loop. -/
def aggFold (evs : List (String × Stage × Stage)) : AggState :=
  evs.foldl aggStep initAgg

/-- `aggregate_events_by_day` from the source: per-stage count series
and the parallel date axis. -/
def aggregate_events_by_day (evs : List (String × Stage × Stage)) :
    (Stage → List Int) × List String :=
  ((aggFold evs).status_by_day, (aggFold evs).dates)

/-- The sum of a counter family over all ten stages. -/
def sumCounts (f : Stage → Int) : Int :=
  f .NOTHING + f .NO_COMPONENT + f .UNCONFIRMED + f .CONFIRMED +
    f .PENDING_NEEDINFO + f .ANSWERED_NEEDINFO + f .TRIAGED +
    f .ASSIGNED + f .IN_REVIEW + f .RESOLVED

/-- The sum over all stages of the `i`-th emitted snapshot. -/
def snapTotal (st : AggState) (i : Nat) : Int :=
  sumCounts (fun s => (st.status_by_day s).getD i 0)

/-- The running maximum of event days from a seed value. -/
def maxDayFrom (a : String) (evs : List (String × Stage × Stage)) : String :=
  evs.foldl (fun acc e => if strLtB acc (dayOf e) then dayOf e else acc) a

/-- The loop's `last_day` after a prefix of events. -/
def lastDayOf (evs : List (String × Stage × Stage)) : String :=
  maxDayFrom "" evs

/-- Modelled from the spec's words, for comparison with the code: the
population counts at the close of calendar date `d`, i.e. after every
transition whose day is `d` or earlier. -/
def closeOfDay (evs : List (String × Stage × Stage)) (d : String) : Stage → Int :=
  applyEvents (evs.filter (fun e => ¬ strLtB d (dayOf e)))

/-- Modelled from the spec's words, for comparison with the code: the
per-stage tally of `get_current_stage` over the records excluded by the
inclusion filter (the claimed background seeding). -/
def backgroundTally (filt : Bug → Bool) (bugs : List Bug) (s : Stage) : Int :=
  ((bugs.filter filt).countP (fun b => get_current_stage b = some s) : Nat)

/-- The component branch of the history scan (lines 113-120 of the
source), run over a flattened change list: a candidate is appended at
the first change of the `component` field whose added value is not
`Untriaged`. -/
def componentFold (moved : Bool) : List (String × FieldChange) → List (String × Stage)
  | [] => []
  | (whenAt, c) :: rest =>
    if c.field_name = "component" then
      if moved = false ∧ c.added ≠ "Untriaged" then
        (whenAt, Stage.UNCONFIRMED) :: componentFold true rest
      else componentFold moved rest
    else componentFold moved rest

/-- The component-signal candidates of a change list. -/
def componentEvents (cs : List (String × FieldChange)) : List (String × Stage) :=
  componentFold false cs

/-- Modelled from the spec's words, for comparison with the code: a
candidate exactly at the first change that moves the component field
away from the default value, i.e. whose removed value is `Untriaged`
and whose added value is not. -/
def specComponentEvents (cs : List (String × FieldChange)) : List (String × Stage) :=
  match cs.find? (fun p =>
      p.2.field_name = "component" ∧ p.2.removed = "Untriaged" ∧ p.2.added ≠ "Untriaged") with
  | some p => [(p.1, Stage.UNCONFIRMED)]
  | none => []

/-- The acceptance test of the commit fold, as a Boolean: the candidate
stage strictly exceeds the last committed stage, or it is the
`ANSWERED_NEEDINFO` to `PENDING_NEEDINFO` re-entry exception. -/
def stepOkB (prev next : Stage) : Bool :=
  decide (stageOrd prev < stageOrd next) ||
    (decide (next = Stage.PENDING_NEEDINFO) && decide (prev = Stage.ANSWERED_NEEDINFO))

/-- Checks that a committed transition list is correctly chained from
`last`: each transition records the previous committed stage and passes
the acceptance test. -/
def chainFromB (last : Stage) : List (String × Stage × Stage) → Bool
  | [] => true
  | (_, s, ls) :: rest => decide (ls = last) && stepOkB last s && chainFromB s rest

/-! ### Concrete inputs used by counterexamples and witnesses -/

/-- A minimal in-window defect: created unconfirmed, no further history. -/
def B1 : Bug :=
  { type := "defect", product := "Firefox", status := "UNCONFIRMED", severity := "--",
    component := "General", creation_time := "2022-01-01T00:00:00Z",
    history := [], attachments := [], flags := [] }

/-- A confirmed bug with unset severity and no patches; its current
stage resolves to `CONFIRMED`. -/
def B3 : Bug :=
  { type := "defect", product := "Firefox", status := "NEW", severity := "--",
    component := "General", creation_time := "2022-01-01T00:00:00Z",
    history := [], attachments := [], flags := [] }

/-- A bug whose single history event changes status to `ASSIGNED` and
severity to `S2` at the same timestamp. -/
def B5 : Bug :=
  { type := "defect", product := "Firefox", status := "ASSIGNED", severity := "S2",
    component := "General", creation_time := "2022-01-01T00:00:00Z",
    history := [⟨"2022-01-02T00:00:00Z",
      [⟨"status", "ASSIGNED", "NEW"⟩, ⟨"severity", "S2", "--"⟩]⟩],
    attachments := [], flags := [] }

/-- A bug whose history removes a needinfo that was never observed being
added: the compensation path of the first replay fires. -/
def B10 : Bug :=
  { type := "defect", product := "Firefox", status := "NEW", severity := "--",
    component := "General", creation_time := "2022-01-01T00:00:00Z",
    history := [⟨"2022-01-03T00:00:00Z",
      [⟨"flagtypes.name", "", "needinfo?(a@b.com)"⟩]⟩],
    attachments := [], flags := [] }

/-- The transition stream the pipeline produces from `B1` alone. -/
def C1evs : List (String × Stage × Stage) :=
  [("2022-01-01T00:00:00Z", Stage.UNCONFIRMED, Stage.NOTHING)]

/-- A one-event stream used against the close-of-day claim. -/
def C2evs : List (String × Stage × Stage) :=
  [("2022-01-01T10:00:00Z", Stage.UNCONFIRMED, Stage.NOTHING)]

/-- The candidate list `get_events` builds for `B5` before sorting. -/
def C5cands : List (String × Stage) :=
  [("2022-01-02T00:00:00Z", Stage.ASSIGNED),
   ("2022-01-02T00:00:00Z", Stage.TRIAGED),
   ("2022-01-01T00:00:00Z", Stage.CONFIRMED)]

/-- The transitions the code commits for `B5`. -/
def C5committed : List (String × Stage × Stage) :=
  [("2022-01-01T00:00:00Z", Stage.CONFIRMED, Stage.NOTHING),
   ("2022-01-02T00:00:00Z", Stage.TRIAGED, Stage.CONFIRMED),
   ("2022-01-02T00:00:00Z", Stage.ASSIGNED, Stage.TRIAGED)]

/-- A change list whose only component change moves between two
non-default values. -/
def C6cex : List (String × FieldChange) :=
  [("2022-01-02T00:00:00Z", (⟨"component", "Layout", "Graphics"⟩ : FieldChange))]

/-- A two-day stream used by the C2 witness. -/
def C2wevs : List (String × Stage × Stage) :=
  [("2022-01-01T00:00:00Z", Stage.UNCONFIRMED, Stage.NOTHING),
   ("2022-01-03T00:00:00Z", Stage.RESOLVED, Stage.UNCONFIRMED)]

/-- The scan state `scanHistory` produces for `B10`. -/
def SC10 : ScanState :=
  ⟨false, false, false, [], [], ["a@b.com"],
   [⟨"2022-01-03T00:00:00Z", [], ["a@b.com"]⟩]⟩

/-! ### Invariant definitions used by the aggregation proofs -/

/-- The conservation invariant of the aggregator state: the running
counters and every already-emitted snapshot sum to zero over all ten
stages. -/
def sumInv (st : AggState) : Prop :=
  sumCounts st.day_status = 0 ∧
  (∀ s, (st.status_by_day s).length = st.dates.length) ∧
  (∀ i, i < st.dates.length → snapTotal st i = 0)

/-- The day-resolved invariant of the aggregator state after a prefix
`P` of the event stream: the counters are the net effect of `P`,
`last_day` is the running maximum day, and the snapshot stored for a
date `d` is the net effect of exactly the events of `P` whose day is
strictly before `d`. -/
def snapInv (P : List (String × Stage × Stage)) (st : AggState) : Prop :=
  st.day_status = applyEvents P ∧
  st.last_day = lastDayOf P ∧
  (∀ s, (st.status_by_day s).length = st.dates.length) ∧
  (∀ (i : Nat) (d : String), st.dates[i]? = some d →
    strLe d (lastDayOf P) ∧
    ∀ s, (st.status_by_day s)[i]? =
      some (applyEvents (P.filter (fun e => strLtB (dayOf e) d)) s))

/-! ### Order facts about the string comparison -/

theorem ltb_nil_right (l : List Char) : ltb l [] = false := by
  cases l <;> rfl

theorem ltb_irrefl (l : List Char) : ltb l l = false := by
  induction l with
  | nil => rfl
  | cons c cs ih => simp [ltb, lt_irrefl, ih]

theorem ltb_cons_iff {x y : Char} {as bs : List Char} :
    ltb (x :: as) (y :: bs) = true ↔ (x < y ∨ (x = y ∧ ltb as bs = true)) := by
  rcases lt_trichotomy x y with h | h | h
  · simp [ltb, h]
  · subst h; simp [ltb, lt_irrefl]
  · simp only [ltb, if_neg (not_lt_of_gt h), if_pos h]
    constructor
    · intro hft; exact absurd hft Bool.false_ne_true
    · rintro (hxy | ⟨rfl, hr⟩)
      · exact absurd hxy (not_lt_of_gt h)
      · exact absurd h (lt_irrefl x)

theorem ltb_trans : ∀ {a b c : List Char},
    ltb a b = true → ltb b c = true → ltb a c = true
  | [], _ :: _, _ :: _, _, _ => rfl
  | x :: as, y :: bs, z :: cs, hab, hbc => by
    rw [ltb_cons_iff] at hab hbc ⊢
    rcases hab with h1 | ⟨h1, h1'⟩ <;> rcases hbc with h2 | ⟨h2, h2'⟩
    · exact Or.inl (lt_trans h1 h2)
    · exact Or.inl (h2 ▸ h1)
    · exact Or.inl (h1 ▸ h2)
    · exact Or.inr ⟨h1.trans h2, ltb_trans h1' h2'⟩

theorem ltb_connex : ∀ {a b : List Char},
    ltb a b = false → ltb b a = false → a = b
  | [], [], _, _ => rfl
  | [], _ :: _, h, _ => by simp [ltb] at h
  | _ :: _, [], _, h => by simp [ltb] at h
  | x :: as, y :: bs, hab, hba => by
    rcases lt_trichotomy x y with h | h | h
    · rw [Bool.eq_false_iff, Ne, ltb_cons_iff] at hab; exact absurd (Or.inl h) hab
    · subst h
      rw [Bool.eq_false_iff, Ne, ltb_cons_iff] at hab hba
      have has : ltb as bs = false := by
        cases hv : ltb as bs
        · rfl
        · exact absurd (Or.inr ⟨rfl, hv⟩) hab
      have hbs : ltb bs as = false := by
        cases hv : ltb bs as
        · rfl
        · exact absurd (Or.inr ⟨rfl, hv⟩) hba
      rw [ltb_connex has hbs]
    · rw [Bool.eq_false_iff, Ne, ltb_cons_iff] at hba; exact absurd (Or.inl h) hba

theorem ltb_asymm {a b : List Char} (h : ltb a b = true) : ltb b a = false := by
  cases hv : ltb b a
  · rfl
  · exact absurd (ltb_irrefl a) (by rw [ltb_trans h hv]; simp)

theorem strLe_refl (a : String) : strLe a a := ltb_irrefl a.data

theorem strLe_trans {a b c : String} (h1 : strLe a b) (h2 : strLe b c) : strLe a c := by
  unfold strLe strLtB at h1 h2 ⊢
  cases hv : ltb c.data a.data
  · rfl
  · rcases hw : ltb a.data b.data with _ | _
    · rw [ltb_connex hw h1] at hv; rw [hv] at h2; exact h2
    · rw [ltb_trans hv hw] at h2; exact h2

theorem strLt_of_strLt_of_strLe {a b c : String} (h1 : strLt a b) (h2 : strLe b c) :
    strLt a c := by
  simp only [strLt, strLe, strLtB] at h1 h2 ⊢
  cases hv : ltb a.data c.data
  · cases hw : ltb c.data a.data
    · rw [ltb_connex hv hw] at h1; rw [h1] at h2; exact h2.symm
    · rw [ltb_trans hw h1] at h2; exact h2.symm
  · rfl

theorem strLt_of_strLe_of_strLt {a b c : String} (h1 : strLe a b) (h2 : strLt b c) :
    strLt a c := by
  simp only [strLt, strLe, strLtB] at h1 h2 ⊢
  cases hv : ltb a.data c.data
  · cases hw : ltb c.data a.data
    · rw [← ltb_connex hv hw] at h2; rw [h2] at h1; exact h1.symm
    · rw [ltb_trans h2 hw] at h1; exact h1.symm
  · rfl

theorem strLe_of_not_strLt {a b : String} (h : strLtB a b = false) : strLe b a := h

theorem strLt_or_strLe (a b : String) : strLt a b ∨ strLe b a := by
  simp only [strLt, strLe, strLtB]
  cases hv : ltb a.data b.data
  · exact Or.inr rfl
  · exact Or.inl rfl

theorem strLe_antisymm {a b : String} (h1 : strLe a b) (h2 : strLe b a) : a = b :=
  String.ext (ltb_connex h2 h1)

theorem strLe_empty (b : String) : strLe "" b := ltb_nil_right b.data

theorem strLe_total (a b : String) : strLe a b ∨ strLe b a := by
  rcases strLt_or_strLe a b with h | h
  · exact Or.inl (ltb_asymm h)
  · exact Or.inr h

theorem strLe_of_strLt {a b : String} (h : strLt a b) : strLe a b := ltb_asymm h

theorem strLt_trans {a b c : String} (h1 : strLt a b) (h2 : strLt b c) : strLt a c :=
  ltb_trans h1 h2

/-! ### Supporting lemmas for the per-record fold -/

theorem removeFirst_eq_none : ∀ {l : List String} {a : String}, a ∉ l → removeFirst a l = none := by
  intro l
  induction l with
  | nil => intro a h; rfl
  | cons x xs ih =>
    intro a h
    simp only [List.mem_cons, not_or] at h
    rw [removeFirst, if_neg (fun he => h.1 he.symm), ih h.2]
    rfl

theorem stepOkB_iff {p n : Stage} :
    stepOkB p n = true ↔
      (stageOrd p < stageOrd n ∨ (n = Stage.PENDING_NEEDINFO ∧ p = Stage.ANSWERED_NEEDINFO)) := by
  simp [stepOkB]

theorem commitFold_chain : ∀ (cands : List (String × Stage)) (last : Stage),
    chainFromB last (commitFold last cands).1 = true := by
  intro cands
  induction cands with
  | nil => intro last; rfl
  | cons c rest ih =>
    intro last
    obtain ⟨w, s⟩ := c
    by_cases hc : stageOrd last < stageOrd s ∨
        (s = Stage.PENDING_NEEDINFO ∧ last = Stage.ANSWERED_NEEDINFO)
    · simp only [commitFold, if_pos hc, chainFromB]
      simp [stepOkB_iff.mpr hc, ih]
    · simp only [commitFold, if_neg hc]
      exact ih last

theorem componentFold_true : ∀ cs : List (String × FieldChange), componentFold true cs = [] := by
  intro cs
  induction cs with
  | nil => rfl
  | cons p rest ih =>
    obtain ⟨w, c⟩ := p
    by_cases h : c.field_name = "component"
    · simp [componentFold, h, ih]
    · simp [componentFold, h, ih]

instance : IsTrans (String × Stage) candLe := ⟨by
  intro a b c h1 h2
  rcases h1 with h1 | ⟨h1e, h1o⟩ <;> rcases h2 with h2 | ⟨h2e, h2o⟩
  · exact Or.inl (strLt_trans h1 h2)
  · exact Or.inl (h2e ▸ h1)
  · exact Or.inl (h1e ▸ h2)
  · exact Or.inr ⟨h1e.trans h2e, le_trans h1o h2o⟩⟩

instance : IsTotal (String × Stage) candLe := ⟨by
  intro a b
  rcases strLt_or_strLe a.1 b.1 with h | h
  · exact Or.inl (Or.inl h)
  · rcases strLt_or_strLe b.1 a.1 with h2 | h2
    · exact Or.inr (Or.inl h2)
    · have he : a.1 = b.1 := strLe_antisymm h2 h
      rcases le_total (stageOrd a.2) (stageOrd b.2) with h3 | h3
      · exact Or.inl (Or.inr ⟨he, h3⟩)
      · exact Or.inr (Or.inr ⟨he.symm, h3⟩)⟩

/-! ### C4: the committed sequence obeys the monotonic-acceptance rule -/

/-- C4: for every record, every transition list the per-record fold
commits is correctly chained from `NOTHING`, and every committed step
either strictly increases the stage ordinal or is the single permitted
exception, a transition into `PENDING_NEEDINFO` immediately after
`ANSWERED_NEEDINFO`; candidates failing this test are discarded by the
fold, so they never appear in the output. -/
theorem C4_committed_monotone (bug : Bug) (evs : List (String × Stage × Stage))
    (h : bugEvents bug = some evs) : chainFromB Stage.NOTHING evs = true := by
  unfold bugEvents at h
  cases hc : candList bug with
  | none => rw [hc] at h; cases h
  | some cands =>
    rw [hc] at h
    have h' : (if (commitFold Stage.NOTHING (List.insertionSort candLe cands)).2 =
          Stage.NO_COMPONENT ∧ bug.component ≠ "Untriaged" then none
        else pure (commitFold Stage.NOTHING (List.insertionSort candLe cands)).1) = some evs := h
    by_cases hfault :
        (commitFold Stage.NOTHING (List.insertionSort candLe cands)).2 = Stage.NO_COMPONENT ∧
          bug.component ≠ "Untriaged"
    · rw [if_pos hfault] at h'; cases h'
    · rw [if_neg hfault] at h'
      simp only [Option.pure_def, Option.some.injEq] at h'
      subst h'
      exact commitFold_chain _ _

/-- Witness for C4 at the concrete bug `B5`. -/
theorem C4_committed_monotone_witness :
    bugEvents B5 = some C5committed ∧ chainFromB Stage.NOTHING C5committed = true :=
  ⟨rfl, C4_committed_monotone B5 C5committed rfl⟩

/-! ### C5: how timestamp ties are actually broken -/

/-- C5 counterexample: for `B5` the candidate list holds an `ASSIGNED`
candidate (from the status source) before a `TRIAGED` candidate (from
the severity source) at the same timestamp; `bug_events.sort()` compares
`(when, stage)` tuples, so it orders the tie by stage ordinal, which
differs from the stable by-timestamp sort of the source-priority order —
and the two orders commit observably different transition sequences.
This refutes the claim that ties are processed in fixed source-priority
order, never in an order determined by the candidates' stage values. -/
theorem C5_counterexample :
    candList B5 = some C5cands ∧
    List.insertionSort candLe C5cands ≠ List.insertionSort whenLe C5cands ∧
    (commitFold Stage.NOTHING (List.insertionSort candLe C5cands)).1 ≠
      (commitFold Stage.NOTHING (List.insertionSort whenLe C5cands)).1 :=
  ⟨rfl, by decide, by decide⟩

/-- C5 amended: the per-record fold processes the candidates in the
order of a sort by `(timestamp, stage ordinal)` — same-timestamp
candidates are ordered by their stage values, with the original list
order only breaking exact duplicates; the sorted sequence is a
permutation of the candidate list. -/
theorem C5_tie_order (bug : Bug) (cands : List (String × Stage))
    (_h : candList bug = some cands) :
    List.Sorted candLe (List.insertionSort candLe cands) ∧
    (List.insertionSort candLe cands).Perm cands :=
  ⟨List.sorted_insertionSort candLe cands, List.perm_insertionSort candLe cands⟩

/-- Witness for the amended C5 at the concrete bug `B5`. -/
theorem C5_tie_order_witness :
    List.Sorted candLe (List.insertionSort candLe C5cands) ∧
    (List.insertionSort candLe C5cands).Perm C5cands :=
  C5_tie_order B5 C5cands rfl

/-! ### C6: which component changes produce a candidate -/

/-- C6 counterexample: a component change from `Graphics` to `Layout`
never moves the field away from the default `Untriaged` value, yet the
code produces an `UNCONFIRMED` candidate for it, while the spec-worded
rule produces none. -/
theorem C6_counterexample :
    componentEvents C6cex = [("2022-01-02T00:00:00Z", Stage.UNCONFIRMED)] ∧
    specComponentEvents C6cex = [] ∧
    ¬ componentEvents C6cex = specComponentEvents C6cex :=
  ⟨rfl, rfl, by decide⟩

/-- C6 amended: an `UNCONFIRMED` candidate from the component signal is
produced exactly at the first component-field change whose new value is
not `Untriaged`, at that change's timestamp, regardless of the prior
value; all later component changes produce no candidate. -/
theorem C6_component_candidate : ∀ cs, componentEvents cs =
    match cs.find? (fun p => decide (p.2.field_name = "component" ∧ p.2.added ≠ "Untriaged")) with
    | some p => [(p.1, Stage.UNCONFIRMED)]
    | none => [] := by
  intro cs
  induction cs with
  | nil => rfl
  | cons p rest ih =>
    obtain ⟨w, c⟩ := p
    by_cases h1 : c.field_name = "component"
    · by_cases h2 : c.added ≠ "Untriaged"
      · simp [componentEvents, componentFold, h1, h2, componentFold_true, List.find?_cons]
      · simp only [componentEvents, componentFold, h1, h2, if_true, if_neg, List.find?_cons] at ih ⊢
        simp [h2] at ih ⊢
        exact ih
    · simp only [componentEvents, componentFold] at ih ⊢
      simp [h1, List.find?_cons, ih]

/-! ### C7: unmatched needinfo removals are compensated, not faults -/

/-- C7: in the first needinfo replay, removing an identity with no
matching open request is not a fault: the state is left unchanged except
that the identity is appended to the creation-time add list (treated as
requested at the record's creation); and the scan of a flag-delta change
always succeeds, so processing of the record continues. -/
theorem C7_removal_compensated :
    (∀ (cur add : List String) (email : String), email ∉ cur →
      ni1RemoveStep (cur, add) email = (cur, add ++ [email])) ∧
    (∀ (st : ScanState) (w : String) (c : FieldChange), c.field_name = "flagtypes.name" →
      (scanChange st w c).isSome = true) := by
  constructor
  · intro cur add email h
    simp [ni1RemoveStep, removeFirst_eq_none h]
  · intro st w c h
    simp [scanChange, h]

/-- Witness for C7 at concrete inputs. -/
theorem C7_removal_compensated_witness :
    ni1RemoveStep (["x@y.z"], []) "a@b.com" = (["x@y.z"], ["a@b.com"]) ∧
    (scanChange initScan "2022-01-02T00:00:00Z"
      ⟨"flagtypes.name", "needinfo?(a@b.com)", ""⟩).isSome = true :=
  ⟨C7_removal_compensated.1 ["x@y.z"] [] "a@b.com" (by decide),
   C7_removal_compensated.2 initScan _ _ rfl⟩

/-! ### C8: the present-moment stage resolver -/

/-- C8: when the status maps to a base stage, `get_current_stage`
returns `IN_REVIEW` if the base is not `RESOLVED` and some attachment is
a patch; otherwise `TRIAGED` if the base is not `RESOLVED` and the
severity is none of the unset sentinels `n/a` and `--`; otherwise the
base stage itself — all from the record's current fields only. -/
theorem C8_current_stage (bug : Bug) (base : Stage)
    (h : status_to_stage bug.status = some base) :
    get_current_stage bug = some (
      if base ≠ Stage.RESOLVED ∧ bug.attachments.any (·.is_patch) then Stage.IN_REVIEW
      else if base ≠ Stage.RESOLVED ∧ (bug.severity ≠ "n/a" ∧ bug.severity ≠ "--") then
        Stage.TRIAGED
      else base) := by
  unfold get_current_stage
  rw [h]
  by_cases h1 : base = Stage.RESOLVED
  · simp [h1]
  · by_cases h2 : bug.attachments.any (·.is_patch)
    · simp [h1, h2]
    · by_cases h3 : bug.severity ≠ "n/a" ∧ bug.severity ≠ "--"
      · simp [h1, h2, h3]
      · simp [h1, h2, h3]

/-- Witness for C8 at the concrete bug `B3`. -/
theorem C8_current_stage_witness :
    status_to_stage B3.status = some Stage.CONFIRMED ∧
    get_current_stage B3 = some (
      if Stage.CONFIRMED ≠ Stage.RESOLVED ∧ B3.attachments.any (·.is_patch) then Stage.IN_REVIEW
      else if Stage.CONFIRMED ≠ Stage.RESOLVED ∧ (B3.severity ≠ "n/a" ∧ B3.severity ≠ "--") then
        Stage.TRIAGED
      else Stage.CONFIRMED) :=
  ⟨rfl, C8_current_stage B3 Stage.CONFIRMED rfl⟩

/-! ### Conservation of the aggregator's counters (C1, C9) -/

theorem sumCounts_bump (f : Stage → Int) (t : Stage) (d : Int) :
    sumCounts (bump f t d) = sumCounts f + d := by
  cases t <;> simp [sumCounts, bump] <;> ring

theorem sumCounts_applyEvent (f : Stage → Int) (e : String × Stage × Stage) :
    sumCounts (applyEvent f e) = sumCounts f := by
  rw [show applyEvent f e = bump (bump f e.2.1 1) e.2.2 (-1) from rfl,
    sumCounts_bump, sumCounts_bump]
  ring

theorem aggStep_sumInv (st : AggState) (e : String × Stage × Stage) (h : sumInv st) :
    sumInv (aggStep st e) := by
  obtain ⟨h1, h2, h3⟩ := h
  unfold aggStep
  by_cases hp : strLtB st.last_day (dayOf e) = true
  · simp only [hp, if_true]
    refine ⟨by rw [sumCounts_applyEvent]; exact h1, ?_, ?_⟩
    · intro s; simp [h2 s]
    · intro i hi
      simp only [List.length_append, List.length_singleton] at hi
      unfold snapTotal
      rcases Nat.lt_or_ge i st.dates.length with hlt | hge
      · have hgd : ∀ s, ((st.status_by_day s ++ [st.day_status s]).getD i 0) =
            (st.status_by_day s).getD i 0 := by
          intro s
          have hl : i < (st.status_by_day s).length := by rw [h2 s]; exact hlt
          simp [List.getD_eq_getElem?_getD, List.getElem?_append, hl]
        simp only [hgd]
        exact h3 i hlt
      · have hieq : i = st.dates.length := by omega
        have hgd : ∀ s, ((st.status_by_day s ++ [st.day_status s]).getD i 0) =
            st.day_status s := by
          intro s
          rw [hieq, ← h2 s]
          simp [List.getD_eq_getElem?_getD, List.getElem?_concat_length]
        simp only [hgd]
        exact h1
  · simp only [hp, if_false]
    exact ⟨by rw [sumCounts_applyEvent]; exact h1, h2, h3⟩

theorem sumInv_aggFold (evs : List (String × Stage × Stage)) : sumInv (aggFold evs) := by
  have hinit : sumInv initAgg := ⟨rfl, fun s => rfl, fun i hi => absurd hi (by simp [initAgg])⟩
  unfold aggFold
  generalize initAgg = st at hinit ⊢
  induction evs generalizing st with
  | nil => exact hinit
  | cons e rest ih => exact ih _ (aggStep_sumInv st e hinit)

/-! ### C1: what snapshot totals actually are -/

/-- C1 counterexample: feeding a single record through the pipeline, the
emitted snapshot's per-stage counts sum to `0`, not to the number of
records fed (`1`): there is no background seeding the snapshot is taken
before the day's first event is applied, and the synthetic `NOTHING`
stage carries a negative count once a record has entered. -/
theorem C1_counterexample :
    get_events (fun _ => false) [B1] = some C1evs ∧
    (aggFold C1evs).dates.length = 1 ∧
    snapTotal (aggFold C1evs) 0 = 0 ∧
    ([B1] : List Bug).length = 1 ∧ (0 : Int) ≠ 1 :=
  ⟨rfl, rfl, rfl, rfl, by decide⟩

/-- C1 amended: for every pipeline run and every emitted snapshot, the
sum of the per-stage counts over all ten stages (the synthetic `NOTHING`
stage included) is zero — the conservation the increment/decrement pairs
actually maintain, independent of the number of records fed. -/
theorem C1_snapshot_total (filt : Bug → Bool) (bugs : List Bug)
    (evs : List (String × Stage × Stage)) (_h : get_events filt bugs = some evs)
    (i : Nat) (hi : i < (aggFold evs).dates.length) :
    snapTotal (aggFold evs) i = 0 :=
  (sumInv_aggFold evs).2.2 i hi

/-- Witness for the amended C1 at the pipeline run on `B1`. -/
theorem C1_snapshot_total_witness :
    get_events (fun _ => false) [B1] = some C1evs ∧ snapTotal (aggFold C1evs) 0 = 0 :=
  ⟨rfl, C1_snapshot_total (fun _ => false) [B1] C1evs rfl 0 (by decide)⟩

/-! ### C3: there is no background seeding -/

/-- C3 counterexample: with one excluded record whose current stage
resolves to `CONFIRMED`, the claimed seeding tally for `CONFIRMED` is
`1`, but the aggregator's counters start at `0` for every stage. -/
theorem C3_counterexample :
    initAgg.day_status Stage.CONFIRMED = 0 ∧
    backgroundTally (fun _ => true) [B3] Stage.CONFIRMED = 1 ∧
    ((0 : Int) ≠ 1) :=
  ⟨rfl, by decide, by decide⟩

theorem foldlM_getEventsStep_filter (filt : Bug → Bool) :
    ∀ (bugs : List Bug) (acc : List (String × Stage × Stage)),
      bugs.foldlM (getEventsStep filt) acc =
        (bugs.filter (fun b => !(filt b))).foldlM (getEventsStep filt) acc := by
  intro bugs
  induction bugs with
  | nil => intro acc; rfl
  | cons b rest ih =>
    intro acc
    by_cases hb : filt b = true
    · simp [List.foldlM_cons, List.filter_cons, getEventsStep, hb, ih]
    · simp only [Bool.not_eq_true] at hb
      simp [List.foldlM_cons, List.filter_cons, getEventsStep, hb, ih]

/-- C3 amended: the aggregator starts from all-zero counters, and
records excluded by the inclusion filter contribute nothing at all to
the pipeline's output — `get_events` is unchanged when they are removed
from its input (`get_current_stage` is never applied to them). -/
theorem C3_no_seeding :
    (∀ s, initAgg.day_status s = 0) ∧
    (∀ (filt : Bug → Bool) (bugs : List Bug),
      get_events filt bugs = get_events filt (bugs.filter (fun b => !(filt b)))) := by
  constructor
  · intro s; rfl
  · intro filt bugs
    unfold get_events
    rw [foldlM_getEventsStep_filter]

/-! ### C9: the per-event counter delta and the zero total -/

/-- C9: each applied event adds one to exactly the committed stage's
counter and subtracts one from exactly the previous stage's counter (a
single counter when the two coincide), and consequently the sum of the
counters over all ten stages, the synthetic `NOTHING` included, is
exactly zero in every emitted snapshot, for every event stream. -/
theorem C9_conservation :
    (∀ (f : Stage → Int) (e : String × Stage × Stage) (s : Stage),
      applyEvent f e s = f s + (if s = e.2.1 then 1 else 0) - (if s = e.2.2 then 1 else 0)) ∧
    (∀ (evs : List (String × Stage × Stage)) (i : Nat),
      i < (aggFold evs).dates.length → snapTotal (aggFold evs) i = 0) := by
  constructor
  · intro f e s
    unfold applyEvent bump
    by_cases h12 : e.2.1 = e.2.2 <;> by_cases h1 : s = e.2.1 <;> by_cases h2 : s = e.2.2 <;>
      simp_all <;> try ring
  · intro evs i hi
    exact (sumInv_aggFold evs).2.2 i hi

/-- Witness for C9 at a concrete stream. -/
theorem C9_conservation_witness :
    0 < (aggFold C2evs).dates.length ∧ snapTotal (aggFold C2evs) 0 = 0 :=
  ⟨by decide, C9_conservation.2 C2evs 0 (by decide)⟩

/-! ### C2: what a snapshot dated D actually contains -/

theorem maxDayFrom_append (a : String) (P : List (String × Stage × Stage))
    (e : String × Stage × Stage) :
    maxDayFrom a (P ++ [e]) =
      if strLtB (maxDayFrom a P) (dayOf e) then dayOf e else maxDayFrom a P := by
  simp [maxDayFrom, List.foldl_append]

theorem le_maxDayFrom_seed : ∀ (evs : List (String × Stage × Stage)) (a : String),
    strLe a (maxDayFrom a evs) := by
  intro evs
  induction evs with
  | nil => intro a; exact strLe_refl a
  | cons e rest ih =>
    intro a
    show strLe a (maxDayFrom (if strLtB a (dayOf e) then dayOf e else a) rest)
    by_cases hp : strLtB a (dayOf e) = true
    · simp only [hp, if_true]
      exact strLe_trans (strLe_of_strLt hp) (ih (dayOf e))
    · simp only [hp, if_false]
      exact ih a

theorem mem_le_maxDayFrom : ∀ (evs : List (String × Stage × Stage)) (a : String)
    (e : String × Stage × Stage), e ∈ evs → strLe (dayOf e) (maxDayFrom a evs) := by
  intro evs
  induction evs with
  | nil => intro a e h; cases h
  | cons x rest ih =>
    intro a e h
    rcases List.mem_cons.mp h with rfl | h
    · show strLe (dayOf e) (maxDayFrom (if strLtB a (dayOf e) then dayOf e else a) rest)
      by_cases hp : strLtB a (dayOf e) = true
      · simp only [hp, if_true]
        exact le_maxDayFrom_seed rest (dayOf e)
      · simp only [hp, if_false]
        have hle : strLe (dayOf e) a := Bool.eq_false_iff.mpr hp
        exact strLe_trans hle (le_maxDayFrom_seed rest a)
    · exact ih _ e h

theorem maxDayFrom_le {b : String} : ∀ (evs : List (String × Stage × Stage)) (a : String),
    strLe a b → (∀ e ∈ evs, strLe (dayOf e) b) → strLe (maxDayFrom a evs) b := by
  intro evs
  induction evs with
  | nil => intro a ha _; exact ha
  | cons e rest ih =>
    intro a ha hmem
    show strLe (maxDayFrom (if strLtB a (dayOf e) then dayOf e else a) rest) b
    by_cases hp : strLtB a (dayOf e) = true
    · simp only [hp, if_true]
      exact ih (dayOf e) (hmem e (List.mem_cons_self e rest))
        (fun x hx => hmem x (List.mem_cons_of_mem e hx))
    · simp only [hp, if_false]
      exact ih a ha (fun x hx => hmem x (List.mem_cons_of_mem e hx))

theorem applyEvents_append_one (P : List (String × Stage × Stage))
    (e : String × Stage × Stage) :
    applyEvents (P ++ [e]) = applyEvent (applyEvents P) e := by
  unfold applyEvents
  rw [List.foldl_append]
  rfl

theorem aggStep_push (st : AggState) (e : String × Stage × Stage)
    (hp : strLtB st.last_day (dayOf e) = true) :
    aggStep st e =
      { day_status := applyEvent st.day_status e
        last_day := dayOf e
        status_by_day := fun s => st.status_by_day s ++ [st.day_status s]
        dates := st.dates ++ [dayOf e] } := by
  unfold aggStep
  simp only [hp, if_true]

theorem aggStep_nopush (st : AggState) (e : String × Stage × Stage)
    (hp : strLtB st.last_day (dayOf e) = false) :
    aggStep st e = { st with day_status := applyEvent st.day_status e } := by
  unfold aggStep
  simp only [hp, Bool.false_eq_true, if_false]

theorem aggStep_snapInv (P : List (String × Stage × Stage)) (st : AggState)
    (e : String × Stage × Stage) (hInv : snapInv P st)
    (hde : ∀ p ∈ P, strLe (dayOf p) (dayOf e)) :
    snapInv (P ++ [e]) (aggStep st e) := by
  obtain ⟨hds, hld, hlen, hsnap⟩ := hInv
  have hmax : strLe (lastDayOf P) (dayOf e) :=
    maxDayFrom_le P "" (strLe_empty _) hde
  have hlast : lastDayOf (P ++ [e]) =
      if strLtB (lastDayOf P) (dayOf e) then dayOf e else lastDayOf P :=
    maxDayFrom_append "" P e
  cases hp : strLtB st.last_day (dayOf e) with
  | true =>
    have hplt : strLtB (lastDayOf P) (dayOf e) = true := by rw [← hld]; exact hp
    have hlast' : lastDayOf (P ++ [e]) = dayOf e := by rw [hlast]; exact if_pos hplt
    have hfilterP : P.filter (fun x => strLtB (dayOf x) (dayOf e)) = P := by
      rw [List.filter_eq_self]
      intro p hpmem
      exact strLt_of_strLe_of_strLt (mem_le_maxDayFrom P "" p hpmem) hplt
    have hirr : strLtB (dayOf e) (dayOf e) = false := ltb_irrefl _
    rw [aggStep_push st e hp]
    refine ⟨?_, ?_, ?_, ?_⟩
    · show applyEvent st.day_status e = applyEvents (P ++ [e])
      rw [applyEvents_append_one, hds]
    · show dayOf e = lastDayOf (P ++ [e])
      rw [hlast']
    · intro s
      show (st.status_by_day s ++ [st.day_status s]).length = (st.dates ++ [dayOf e]).length
      simp [hlen s]
    · intro i d hd
      by_cases hi : i < st.dates.length
      · have hd' : (st.dates ++ [dayOf e])[i]? = some d := hd
        rw [List.getElem?_append, if_pos hi] at hd'
        obtain ⟨hdle, hcnt⟩ := hsnap i d hd'
        have hq : strLtB (dayOf e) d = false := strLe_trans hdle hmax
        constructor
        · rw [hlast']
          exact strLe_trans hdle hmax
        · intro s
          have hi' : i < (st.status_by_day s).length := by rw [hlen s]; exact hi
          show (st.status_by_day s ++ [st.day_status s])[i]? = _
          rw [List.getElem?_append, if_pos hi', hcnt s]
          congr 1
          rw [List.filter_append]
          simp [hq]
      · have hd' : (st.dates ++ [dayOf e])[i]? = some d := hd
        rw [List.getElem?_append, if_neg hi] at hd'
        have hieq : i = st.dates.length := by
          cases hn : i - st.dates.length with
          | zero => omega
          | succ k => rw [hn] at hd'; simp at hd'
        have hde' : d = dayOf e := by
          rw [hieq, Nat.sub_self] at hd'
          simpa using hd'.symm
        subst hde'
        constructor
        · rw [hlast']
          exact strLe_refl _
        · intro s
          show (st.status_by_day s ++ [st.day_status s])[i]? = _
          rw [hieq, ← hlen s, List.getElem?_concat_length]
          congr 1
          rw [List.filter_append]
          simp only [List.filter_cons, List.filter_nil, hirr]
          rw [hfilterP]
          simp [hds]
  | false =>
    have hplt : strLtB (lastDayOf P) (dayOf e) = false := by rw [← hld]; exact hp
    have hlast' : lastDayOf (P ++ [e]) = lastDayOf P := by
      rw [hlast]; exact if_neg (by simp [hplt])
    rw [aggStep_nopush st e hp]
    refine ⟨?_, ?_, hlen, ?_⟩
    · show applyEvent st.day_status e = applyEvents (P ++ [e])
      rw [applyEvents_append_one, hds]
    · show st.last_day = lastDayOf (P ++ [e])
      rw [hlast']
      exact hld
    · intro i d hd
      obtain ⟨hdle, hcnt⟩ := hsnap i d hd
      have hq : strLtB (dayOf e) d = false := strLe_trans hdle hmax
      constructor
      · rw [hlast']
        exact hdle
      · intro s
        rw [hcnt s]
        congr 1
        rw [List.filter_append]
        simp [hq]

theorem snapInv_init : snapInv [] initAgg :=
  ⟨rfl, rfl, fun _ => rfl, fun i d hd => by simp [initAgg] at hd⟩

theorem aggGo_snapInv : ∀ (evs P : List (String × Stage × Stage)) (st : AggState),
    snapInv P st →
    (∀ p ∈ P, ∀ e ∈ evs, strLe (dayOf p) (dayOf e)) →
    List.Pairwise (fun a b => strLe (dayOf a) (dayOf b)) evs →
    snapInv (P ++ evs) (evs.foldl aggStep st) := by
  intro evs
  induction evs with
  | nil =>
    intro P st h _ _
    simpa using h
  | cons e rest ih =>
    intro P st hInv hcross hpw
    have hstep := aggStep_snapInv P st e hInv
      (fun p hp => hcross p hp e (List.mem_cons_self e rest))
    have hcross' : ∀ p ∈ P ++ [e], ∀ r ∈ rest, strLe (dayOf p) (dayOf r) := by
      intro p hp r hr
      rcases List.mem_append.mp hp with h | h
      · exact hcross p h r (List.mem_cons_of_mem e hr)
      · have hpe : p = e := by simpa using h
        subst hpe
        exact (List.pairwise_cons.mp hpw).1 r hr
    have hres := ih (P ++ [e]) (aggStep st e) hstep hcross' (List.pairwise_cons.mp hpw).2
    simpa [List.append_assoc] using hres

/-- C2 amended: for a day-monotone event stream (which the sorted
merged stream is), the snapshot stored for date `D` holds, for every
stage, the net effect of exactly the events whose day is strictly
before `D` — the population at the close of the last previous eventful
day, not at the close of `D`. -/
theorem C2_snapshot_content (evs : List (String × Stage × Stage))
    (hpw : List.Pairwise (fun a b => strLe (dayOf a) (dayOf b)) evs)
    (i : Nat) (d : String) (hd : (aggFold evs).dates[i]? = some d) (s : Stage) :
    ((aggFold evs).status_by_day s)[i]? =
      some (applyEvents (evs.filter (fun e => strLtB (dayOf e) d)) s) := by
  have h := aggGo_snapInv evs [] initAgg snapInv_init (by simp) hpw
  rw [List.nil_append] at h
  exact (h.2.2.2 i d hd).2 s

/-- Witness for the amended C2 at a concrete two-day stream. -/
theorem C2_snapshot_content_witness :
    (aggFold C2wevs).dates[1]? = some "2022-01-03" ∧
    ((aggFold C2wevs).status_by_day Stage.UNCONFIRMED)[1]? =
      some (applyEvents (C2wevs.filter (fun e => strLtB (dayOf e) "2022-01-03"))
        Stage.UNCONFIRMED) :=
  ⟨rfl, C2_snapshot_content C2wevs (by decide) 1 "2022-01-03" rfl Stage.UNCONFIRMED⟩

/-- C2 counterexample: a single transition on 2022-01-01 produces a
snapshot dated 2022-01-01 whose `UNCONFIRMED` count is `0`, while the
population at the close of that calendar date (after applying the
day's transition) is `1`: the snapshot is pushed before the day's
events are applied, so it cannot be the close-of-day population. -/
theorem C2_counterexample :
    (aggFold C2evs).dates[0]? = some "2022-01-01" ∧
    ((aggFold C2evs).status_by_day Stage.UNCONFIRMED)[0]? = some 0 ∧
    closeOfDay C2evs "2022-01-01" Stage.UNCONFIRMED = 1 ∧
    ((0 : Int) ≠ 1) :=
  ⟨rfl, rfl, rfl, by decide⟩

/-! ### C10: the second needinfo replay cannot fail -/

theorem removeFirst_none_iff {a : String} : ∀ {l : List String},
    removeFirst a l = none ↔ a ∉ l := by
  intro l
  induction l with
  | nil => simp [removeFirst]
  | cons y ys ih =>
    rw [removeFirst]
    by_cases hy : y = a
    · simp [hy]
    · rw [if_neg hy]
      simp only [Option.map_eq_none', List.mem_cons, not_or]
      rw [ih]
      constructor
      · intro h
        exact ⟨fun he => hy he.symm, h⟩
      · intro h
        exact h.2

theorem removeFirst_count {a : String} : ∀ {l l' : List String},
    removeFirst a l = some l' →
    ∀ x, l.count x = l'.count x + (if x = a then 1 else 0) := by
  intro l
  induction l with
  | nil => intro l' h; cases h
  | cons y ys ih =>
    intro l' h x
    by_cases hy : y = a
    · rw [removeFirst, if_pos hy] at h
      cases h
      subst hy
      by_cases hx : x = y
      · subst hx
        rw [List.count_cons_self]
        simp
      · rw [List.count_cons_of_ne (fun he => hx he)]
        simp [fun he : x = y => hx he]
    · rw [removeFirst, if_neg hy] at h
      cases hr : removeFirst a ys with
      | none => rw [hr] at h; cases h
      | some t =>
        rw [hr] at h
        simp only [Option.map_some', Option.some.injEq] at h
        subst h
        have hcount := ih hr x
        by_cases hxy : x = y
        · subst hxy
          rw [List.count_cons_self, List.count_cons_self]
          omega
        · rw [List.count_cons_of_ne (fun he => hxy he),
            List.count_cons_of_ne (fun he => hxy he)]
          exact hcount

theorem removeFirst_isSome_of_count {a : String} {l : List String}
    (h : 0 < l.count a) : ∃ l', removeFirst a l = some l' := by
  cases hr : removeFirst a l with
  | none =>
    exfalso
    have hmem : a ∉ l := removeFirst_none_iff.mp hr
    rw [List.count_eq_zero_of_not_mem hmem] at h
    exact absurd h (by omega)
  | some t => exact ⟨t, rfl⟩

theorem remFold_comp_extends : ∀ (rs : List String) (c k : List String),
    k <+: (remFold (c, k) rs).2 := by
  intro rs
  induction rs with
  | nil => intro c k; exact List.prefix_refl k
  | cons r rs ih =>
    intro c k
    show k <+: (remFold (ni1RemoveStep (c, k) r) rs).2
    cases hr : removeFirst r c with
    | some c' =>
      have hstep : ni1RemoveStep (c, k) r = (c', k) := by simp [ni1RemoveStep, hr]
      rw [hstep]
      exact ih c' k
    | none =>
      have hstep : ni1RemoveStep (c, k) r = (c, k ++ [r]) := by simp [ni1RemoveStep, hr]
      rw [hstep]
      exact (List.prefix_append k [r]).trans (ih c (k ++ [r]))

theorem pass1_comp_extends : ∀ (ds : List NiEvent) (c k : List String),
    k <+: (pass1 (c, k) ds).2 := by
  intro ds
  induction ds with
  | nil => intro c k; exact List.prefix_refl k
  | cons ev ds ih =>
    intro c k
    show k <+: (pass1 (pass1Step (c, k) ev) ds).2
    have hp : pass1Step (c, k) ev =
        ((remFold (c, k) ev.remove).1 ++ ev.add, (remFold (c, k) ev.remove).2) := rfl
    rw [hp]
    exact (remFold_comp_extends ev.remove c k).trans (ih _ _)

theorem rem_sim (K x : List String) : ∀ (rs : List String) (c1 k1 c2 : List String),
    (remFold (c1, k1) rs).2 <+: K →
    (∀ e, c1.count e + K.count e + x.count e = c2.count e + k1.count e) →
    ∃ c2', rem2Fold c2 rs = some c2' ∧
      (∀ e, (remFold (c1, k1) rs).1.count e + K.count e + x.count e =
        c2'.count e + (remFold (c1, k1) rs).2.count e) := by
  intro rs
  induction rs with
  | nil =>
    intro c1 k1 c2 hpre H
    exact ⟨c2, rfl, H⟩
  | cons r rs ih =>
    intro c1 k1 c2 hpre H
    have hfold : remFold (c1, k1) (r :: rs) = remFold (ni1RemoveStep (c1, k1) r) rs := rfl
    cases hr : removeFirst r c1 with
    | some c1' =>
      have hstep : ni1RemoveStep (c1, k1) r = (c1', k1) := by simp [ni1RemoveStep, hr]
      have hpre' : (remFold (c1', k1) rs).2 <+: K := by
        rw [hfold, hstep] at hpre
        exact hpre
      have hk1K : k1 <+: K := (remFold_comp_extends rs c1' k1).trans hpre'
      have hc1r : c1'.count r + 1 = c1.count r := by
        have := removeFirst_count hr r
        simp at this
        omega
      have hc2r : 0 < c2.count r := by
        have h2 := H r
        have h3 : k1.count r ≤ K.count r := hk1K.sublist.count_le r
        omega
      obtain ⟨c2', hc2'⟩ := removeFirst_isSome_of_count hc2r
      have H' : ∀ e, c1'.count e + K.count e + x.count e = c2'.count e + k1.count e := by
        intro e
        have ha := removeFirst_count hr e
        have hb := removeFirst_count hc2' e
        have hc := H e
        by_cases he : e = r
        · subst he
          simp at ha hb
          omega
        · simp [he] at ha hb
          omega
      obtain ⟨c2f, hf, Hf⟩ := ih c1' k1 c2' hpre' H'
      refine ⟨c2f, ?_, ?_⟩
      · show (removeFirst r c2).bind (fun c => rem2Fold c rs) = some c2f
        rw [hc2']
        exact hf
      · rw [hfold, hstep]
        exact Hf
    | none =>
      have hstep : ni1RemoveStep (c1, k1) r = (c1, k1 ++ [r]) := by simp [ni1RemoveStep, hr]
      have hpre' : (remFold (c1, k1 ++ [r]) rs).2 <+: K := by
        rw [hfold, hstep] at hpre
        exact hpre
      have hkK : (k1 ++ [r]) <+: K := (remFold_comp_extends rs c1 (k1 ++ [r])).trans hpre'
      have hc1r : c1.count r = 0 :=
        List.count_eq_zero_of_not_mem (removeFirst_none_iff.mp hr)
      have hc2r : 0 < c2.count r := by
        have h2 := H r
        have h3 : (k1 ++ [r]).count r ≤ K.count r := hkK.sublist.count_le r
        rw [List.count_append, List.count_cons_self, List.count_nil] at h3
        omega
      obtain ⟨c2', hc2'⟩ := removeFirst_isSome_of_count hc2r
      have H' : ∀ e, c1.count e + K.count e + x.count e =
          c2'.count e + (k1 ++ [r]).count e := by
        intro e
        have hb := removeFirst_count hc2' e
        have hc := H e
        rw [List.count_append]
        by_cases he : e = r
        · subst he
          rw [List.count_cons_self, List.count_nil]
          simp at hb
          omega
        · rw [List.count_cons_of_ne (fun hx => he hx), List.count_nil]
          simp [he] at hb
          omega
      obtain ⟨c2f, hf, Hf⟩ := ih c1 (k1 ++ [r]) c2' hpre' H'
      refine ⟨c2f, ?_, ?_⟩
      · show (removeFirst r c2).bind (fun c => rem2Fold c rs) = some c2f
        rw [hc2']
        exact hf
      · rw [hfold, hstep]
        exact Hf

theorem replayEvent_some {c2 c2' : List String} {acc : List (String × Stage)}
    (ev : NiEvent) (hc2' : rem2Fold c2 ev.remove = some c2') :
    ∃ acc', replayEvent (c2, acc) ev = some (c2' ++ ev.add, acc') := by
  unfold replayEvent
  simp only [hc2', Option.bind_eq_bind, Option.some_bind]
  split_ifs <;> exact ⟨_, rfl⟩

theorem replay_sim (K x : List String) : ∀ (ds : List NiEvent) (c1 k1 c2 : List String)
    (acc : List (String × Stage)),
    (pass1 (c1, k1) ds).2 <+: K →
    (∀ e, c1.count e + K.count e + x.count e = c2.count e + k1.count e) →
    (ds.foldlM replayEvent (c2, acc)).isSome = true := by
  intro ds
  induction ds with
  | nil =>
    intro c1 k1 c2 acc hpre H
    simp
  | cons ev ds ih =>
    intro c1 k1 c2 acc hpre H
    have hpass : pass1 (c1, k1) (ev :: ds) = pass1 (pass1Step (c1, k1) ev) ds := rfl
    have hstep : pass1Step (c1, k1) ev =
        ((remFold (c1, k1) ev.remove).1 ++ ev.add, (remFold (c1, k1) ev.remove).2) := rfl
    rw [hpass, hstep] at hpre
    have hpre1 : (remFold (c1, k1) ev.remove).2 <+: K :=
      (pass1_comp_extends ds _ _).trans hpre
    obtain ⟨c2', hc2', H'⟩ := rem_sim K x ev.remove c1 k1 c2 hpre1 H
    obtain ⟨acc', hacc⟩ := @replayEvent_some c2 c2' acc ev hc2'
    have H'' : ∀ e, ((remFold (c1, k1) ev.remove).1 ++ ev.add).count e + K.count e +
        x.count e = (c2' ++ ev.add).count e + (remFold (c1, k1) ev.remove).2.count e := by
      intro e
      rw [List.count_append, List.count_append]
      have := H' e
      omega
    have hrec := ih _ _ (c2' ++ ev.add) acc' hpre H''
    show ((ev :: ds).foldlM replayEvent (c2, acc)).isSome = true
    rw [List.foldlM_cons, hacc]
    simpa using hrec

theorem scanChange_ni_preserved {st st' : ScanState} {w : String} {c : FieldChange}
    (hne : c.field_name ≠ "flagtypes.name") (h : scanChange st w c = some st') :
    st'.current_needinfos = st.current_needinfos ∧
    st'.ni_creation_add = st.ni_creation_add ∧ st'.ni_rest = st.ni_rest := by
  unfold scanChange at h
  by_cases h1 : c.field_name = "status"
  · rw [if_pos h1] at h
    cases hs : status_to_stage c.added with
    | none => rw [hs] at h; cases h
    | some stg =>
      rw [hs] at h
      cases h
      exact ⟨rfl, rfl, rfl⟩
  · rw [if_neg h1] at h
    by_cases h2 : c.field_name = "severity"
    · rw [if_pos h2] at h
      split_ifs at h <;> (cases h; exact ⟨rfl, rfl, rfl⟩)
    · rw [if_neg h2] at h
      by_cases h3 : c.field_name = "component"
      · rw [if_pos h3] at h
        split_ifs at h <;> (cases h; exact ⟨rfl, rfl, rfl⟩)
      · rw [if_neg h3, if_neg hne] at h
        cases h
        exact ⟨rfl, rfl, rfl⟩

theorem scanChange_flag {st : ScanState} {w : String} {c : FieldChange}
    (hfl : c.field_name = "flagtypes.name") :
    scanChange st w c = some { st with
      ni_rest := st.ni_rest ++ [⟨w, niFindAll c.added, niFindAll c.removed⟩]
      current_needinfos := (pass1Step (st.current_needinfos, st.ni_creation_add)
        ⟨w, niFindAll c.added, niFindAll c.removed⟩).1
      ni_creation_add := (pass1Step (st.current_needinfos, st.ni_creation_add)
        ⟨w, niFindAll c.added, niFindAll c.removed⟩).2 } := by
  simp [scanChange, hfl]

theorem scan_ni_projection : ∀ (cs : List (String × FieldChange)) (st st' : ScanState),
    cs.foldlM (fun st p => scanChange st p.1 p.2) st = some st' →
    st'.current_needinfos =
      (pass1 (st.current_needinfos, st.ni_creation_add) (extractDeltas cs)).1 ∧
    st'.ni_creation_add =
      (pass1 (st.current_needinfos, st.ni_creation_add) (extractDeltas cs)).2 ∧
    st'.ni_rest = st.ni_rest ++ extractDeltas cs := by
  intro cs
  induction cs with
  | nil =>
    intro st st' h
    simp only [List.foldlM_nil, Option.pure_def, Option.some.injEq] at h
    subst h
    exact ⟨rfl, rfl, by simp [extractDeltas]⟩
  | cons p cs ih =>
    intro st st' h
    rw [List.foldlM_cons] at h
    cases hs : scanChange st p.1 p.2 with
    | none =>
      rw [hs] at h
      cases h
    | some st1 =>
      rw [hs] at h
      simp only [Option.bind_eq_bind, Option.some_bind] at h
      by_cases hfl : p.2.field_name = "flagtypes.name"
      · rw [scanChange_flag hfl] at hs
        have hst1 : st1 = { st with
            ni_rest := st.ni_rest ++ [⟨p.1, niFindAll p.2.added, niFindAll p.2.removed⟩]
            current_needinfos := (pass1Step (st.current_needinfos, st.ni_creation_add)
              ⟨p.1, niFindAll p.2.added, niFindAll p.2.removed⟩).1
            ni_creation_add := (pass1Step (st.current_needinfos, st.ni_creation_add)
              ⟨p.1, niFindAll p.2.added, niFindAll p.2.removed⟩).2 } := by
          injection hs.symm
        have hext : extractDeltas (p :: cs) =
            (⟨p.1, niFindAll p.2.added, niFindAll p.2.removed⟩ : NiEvent) ::
              extractDeltas cs := by
          simp [extractDeltas, hfl]
        obtain ⟨i1, i2, i3⟩ := ih st1 st' h
        subst hst1
        rw [hext]
        refine ⟨i1, i2, ?_⟩
        rw [i3]
        simp
      · obtain ⟨e1, e2, e3⟩ := scanChange_ni_preserved hfl hs
        have hext : extractDeltas (p :: cs) = extractDeltas cs := by
          simp [extractDeltas, hfl]
        obtain ⟨i1, i2, i3⟩ := ih st1 st' h
        rw [hext]
        rw [e1, e2] at i1 i2
        rw [e3] at i3
        exact ⟨i1, i2, i3⟩

/-- C10: for every record, the second needinfo replay — whose removal
is unguarded where the first replay's was guarded — never attempts to
remove an identity absent from the pending list: starting from the
creation-time event that carries the compensations of the first replay
plus the reconciled standing flags, every removal in the replay is
matched, so the whole replay returns a value.  The proof is a counting
simulation between the two replays: the second replay's pending
multiset always exceeds the first replay's by exactly the compensations
not yet consumed plus the standing flags. -/
theorem C10_replay_total (bug : Bug) (sc : ScanState) (h : scanHistory bug = some sc) :
    (replayAll (⟨bug.creation_time,
        sc.ni_creation_add ++ standingFlags bug sc.current_needinfos, []⟩ ::
      sc.ni_rest)).isSome = true := by
  obtain ⟨hcur, hcadd, hrest⟩ := scan_ni_projection (flatChanges bug.history) initScan sc h
  have hinit1 : initScan.current_needinfos = [] := rfl
  have hinit2 : initScan.ni_creation_add = [] := rfl
  have hinit3 : initScan.ni_rest = [] := rfl
  rw [hinit1, hinit2] at hcadd
  rw [hinit3, List.nil_append] at hrest
  unfold replayAll
  rw [List.foldlM_cons]
  obtain ⟨acc0, hacc0⟩ := @replayEvent_some [] [] []
    (⟨bug.creation_time, sc.ni_creation_add ++ standingFlags bug sc.current_needinfos, []⟩ :
      NiEvent) rfl
  rw [hacc0]
  simp only [Option.bind_eq_bind, Option.some_bind]
  rw [hrest]
  apply replay_sim ((pass1 ([], []) (extractDeltas (flatChanges bug.history))).2)
    (standingFlags bug sc.current_needinfos)
    (extractDeltas (flatChanges bug.history)) [] [] _ _ (List.prefix_refl _)
  intro e
  rw [← hcadd]
  simp [List.count_append]

/-- Witness for C10 at the concrete bug `B10`, whose history removes a
needinfo that was never observed being added. -/
theorem C10_replay_total_witness :
    scanHistory B10 = some SC10 ∧
    (replayAll (⟨B10.creation_time,
        SC10.ni_creation_add ++ standingFlags B10 SC10.current_needinfos, []⟩ ::
      SC10.ni_rest)).isSome = true :=
  ⟨by decide, C10_replay_total B10 SC10 (by decide)⟩
